import Mathlib

/-!
Shallow embedding of the fixity-core FIX wire-format codec
(src/fixity-core/src/wire_format.rs and src/fixity-core/src/data_types).

Bytes are modelled as `Nat`, byte buffers as `List Nat`, and the nom
parsers as functions `List Nat → Option (List Nat × α)` returning the
remaining input and the parsed value (`none` is a parse error; the distinct
nom error kinds are collapsed, since every property below depends only on
success versus failure and the values produced).  A machine integer of
width `w` is a `Nat` bounded by `2 ^ w - 1` in the unsigned case and an
`Int` in `[-2 ^ (w - 1), 2 ^ (w - 1) - 1]` in the signed case; the Rust
`checked_mul` / `checked_add` calls become explicit bound checks, and the
places where the Rust code can fault (out-of-bounds slice index, `unwrap`
of `None`) are modelled by an explicit `panic` outcome.
-/

namespace Fixity

/-- ASCII digit test, byte 0x30 to byte 0x39. -/
def isDigit (b : Nat) : Bool := 48 ≤ b && b ≤ 57

/-- Decimal value of a run of ASCII digit bytes folded onto `acc`, most
significant digit first: the mathematical (unbounded) value computed by the
accumulation loops of `atoi` and `u_atoi`. -/
def digitsVal (acc : Nat) : List Nat → Nat
  | [] => acc
  | d :: ds => digitsVal (acc * 10 + (d - 48)) ds

/-- Maximum of a `w`-bit signed integer (`T::max_value()`). -/
def intMax (w : Nat) : Int := ((2 ^ (w - 1) : Nat) : Int) - 1

/-- Minimum of a `w`-bit signed integer (`T::min_value()`). -/
def intMin (w : Nat) : Int := -((2 ^ (w - 1) : Nat) : Int)

/-- `byte(b)` of wire_format.rs line 46: `verify(take(1), |i| i[0] == b)`,
one exact byte. -/
def byteP (b : Nat) : List Nat → Option (List Nat × Nat)
  | [] => none
  | c :: rest => if c = b then some (rest, c) else none

/-- `nom::combinator::opt`: never fails, and consumes nothing when the inner
parser fails. -/
def optP {α : Type} (p : List Nat → Option (List Nat × α)) (i : List Nat) :
    List Nat × Option α :=
  match p i with
  | some (rem, v) => (rem, some v)
  | none => (i, none)

/-- `nom::character::complete::digit1`: a maximal nonempty run of ASCII
digits. -/
def digit1 (i : List Nat) : Option (List Nat × List Nat) :=
  if i.takeWhile isDigit = [] then none
  else some (i.dropWhile isDigit, i.takeWhile isDigit)

/-- `nom::bytes::complete::take_till1 p`: a maximal nonempty run of bytes not
satisfying `p`; in the complete variant it runs to the end of the input when
`p` never holds, and fails only when it would take zero bytes. -/
def take_till1 (p : Nat → Bool) (i : List Nat) : Option (List Nat × List Nat) :=
  if i.takeWhile (fun b => !p b) = [] then none
  else some (i.dropWhile (fun b => !p b), i.takeWhile (fun b => !p b))

/-- `nom::bytes::complete::take n`: exactly `n` bytes, failing when fewer
remain. -/
def takeP (n : Nat) (i : List Nat) : Option (List Nat × List Nat) :=
  if n ≤ i.length then some (i.drop n, i.take n) else none

/-- `nom::bytes::complete::is_a(b"0")` as used by `tagnum`: a maximal
nonempty run of ASCII zero bytes. -/
def isA0 (i : List Nat) : Option (List Nat × List Nat) :=
  if i.takeWhile (fun b => b == 48) = [] then none
  else some (i.dropWhile (fun b => b == 48), i.takeWhile (fun b => b == 48))

/-- `nom::combinator::verify`. -/
def verifyP {α : Type} (p : List Nat → Option (List Nat × α)) (f : α → Bool)
    (i : List Nat) : Option (List Nat × α) :=
  match p i with
  | some (rem, v) => if f v then some (rem, v) else none
  | none => none

/-- `nom::combinator::all_consuming` composed with the `.map(|(_, v)| v)`
done by every field impl in data_types/int.rs: succeed only when the inner
parser consumes the entire input. -/
def all_consuming {α : Type} (p : List Nat → Option (List Nat × α))
    (i : List Nat) : Option α :=
  match p i with
  | some ([], v) => some v
  | _ => none

/-- The digit-accumulation loop of `u_atoi` (wire_format.rs lines 125-135):
`value = value.checked_mul(10)?; value = value.checked_add(d - 0x30)?` over
an unsigned integer whose maximum is `max`; a failed check is the TooLarge
error. -/
def uFold (max : Nat) (value : Nat) : List Nat → Option Nat
  | [] => some value
  | d :: ds =>
    if value * 10 ≤ max then
      if value * 10 + (d - 48) ≤ max then uFold max (value * 10 + (d - 48)) ds
      else none
    else none

/-- The digit-accumulation loop of `atoi` (wire_format.rs lines 54-67):
checked multiplication by 10 then checked addition of the digit, negated
when the sign byte was present, over a `w`-bit signed integer. -/
def sFold (w : Nat) (neg : Bool) (value : Int) : List Nat → Option Int
  | [] => some value
  | d :: ds =>
    if intMin w ≤ value * 10 ∧ value * 10 ≤ intMax w then
      if intMin w ≤ value * 10 + (if neg then -((d - 48 : Nat) : Int) else ((d - 48 : Nat) : Int)) ∧
          value * 10 + (if neg then -((d - 48 : Nat) : Int) else ((d - 48 : Nat) : Int)) ≤ intMax w then
        sFold w neg (value * 10 + (if neg then -((d - 48 : Nat) : Int) else ((d - 48 : Nat) : Int))) ds
      else none
    else none

/-- `u_atoi::<T>` (wire_format.rs lines 121-138) for an unsigned width with
maximum `max`: `map_res(digit1, unsigned_atoi)`. -/
def u_atoi (max : Nat) (i : List Nat) : Option (List Nat × Nat) :=
  match digit1 i with
  | none => none
  | some (rem, ds) =>
    match uFold max 0 ds with
    | none => none
    | some v => some (rem, v)

/-- `atoi::<T>` (wire_format.rs lines 50-70) for a `w`-bit signed integer:
`map_res(tuple((opt(byte(0x2D)), digit1)), signed_atoi)`. -/
def atoi (w : Nat) (i : List Nat) : Option (List Nat × Int) :=
  let s := optP (byteP 45) i
  match digit1 s.1 with
  | none => none
  | some (rem, ds) =>
    match sFold w s.2.isSome 0 ds with
    | none => none
    | some v => some (rem, v)

/-- `tagnum` (wire_format.rs lines 176-183): an unsigned 16-bit `u_atoi`
that rejects leading zeros via `verify(opt(is_a(b"0")), |z| z.is_none())`. -/
def tagnum (i : List Nat) : Option (List Nat × Nat) :=
  let s := optP isA0 i
  match s.2 with
  | some _ => none
  | none => u_atoi 65535 s.1

/-- `tag_delimited(delimiter)` (wire_format.rs lines 195-205).  The result
`(remaining, tag, value)` packages the remaining input together with the
`RawTag` structure of tag number and value bytes. -/
def tag_delimited (delim : Nat) (i : List Nat) :
    Option (List Nat × Nat × List Nat) :=
  match tagnum i with
  | none => none
  | some (i1, t) =>
    match byteP 61 i1 with
    | none => none
    | some (i2, _) =>
      match take_till1 (fun c => c == delim) i2 with
      | none => none
      | some (i3, v) =>
        match byteP delim i3 with
        | none => none
        | some (i4, _) => some (i4, t, v)

/-- `data_tag_delimited(delimiter, len)` (wire_format.rs lines 213-218):
identical tag-number and equals handling, but the value is exactly `len`
bytes taken verbatim. -/
def data_tag_delimited (delim len : Nat) (i : List Nat) :
    Option (List Nat × Nat × List Nat) :=
  match tagnum i with
  | none => none
  | some (i1, t) =>
    match byteP 61 i1 with
    | none => none
    | some (i2, _) =>
      match takeP len i2 with
      | none => none
      | some (i3, v) =>
        match byteP delim i3 with
        | none => none
        | some (i4, _) => some (i4, t, v)

/-- Outcome of an encode call: `ok written buf` models `Some(written)`
together with the final buffer contents, `fail buf` models `None`, and
`panic` models a Rust fault (an out-of-bounds slice index, or an `unwrap`
of a `None` from `to_usize`). -/
inductive EncOut
  | ok (written : Nat) (buf : List Nat)
  | fail (buf : List Nat)
  | panic
deriving DecidableEq, Repr

/-- The digit-emission loop of `u_itos` (wire_format.rs lines 160-170).  The
write `buf[index] = ASCII_DIGITS[c]` is an out-of-bounds fault when `index`
is not below the buffer length; the length check of the source runs only
after the write, on the incremented index.  `fuel` merely bounds the
recursion: the caller passes `value + 1`, which always suffices because the
value shrinks by a factor of ten each iteration. -/
def u_itos_loop (fuel : Nat) (buf : List Nat) (index value : Nat) : EncOut :=
  match fuel with
  | 0 => EncOut.panic
  | fuel + 1 =>
    if value = 0 then EncOut.ok index buf
    else if index < buf.length then
      let buf2 := buf.set index (48 + value % 10)
      if buf2.length < index + 1 then EncOut.fail buf2
      else u_itos_loop fuel buf2 (index + 1) (value / 10)
    else EncOut.panic

/-- `u_itos::<T>` (wire_format.rs lines 140-174).  `swap_outer_inner` on
`buf[..index]` is in-place reversal of the first `index` bytes. -/
def u_itos (value : Nat) (buf : List Nat) : EncOut :=
  if buf.length = 0 then EncOut.fail buf
  else if value = 0 then EncOut.ok 1 (buf.set 0 48)
  else
    match u_itos_loop (value + 1) buf 0 value with
    | EncOut.ok index buf2 =>
      EncOut.ok index ((buf2.take index).reverse ++ buf2.drop index)
    | r => r

/-- Truncating division of a signed integer by ten, the Rust `value / ten`. -/
def tdiv10 (v : Int) : Int :=
  if v < 0 then -((v.natAbs / 10 : Nat) : Int) else ((v.natAbs / 10 : Nat) : Int)

/-- Truncating remainder of a signed integer by ten, the Rust `value % ten`;
it is negative for a negative value not divisible by ten. -/
def tmod10 (v : Int) : Int := v - 10 * tdiv10 v

/-- The digit-emission loop of `itos` (wire_format.rs lines 98-108), run on
the post-negation value, which stays negative when the negation wrapped.
`(value % ten).to_usize().unwrap()` is a fault when the truncating remainder
is negative; it runs before the buffer write.  `fuel` merely bounds the
recursion and the magnitude plus one always suffices. -/
def itos_loop (fuel : Nat) (buf : List Nat) (index : Nat) (value : Int) : EncOut :=
  match fuel with
  | 0 => EncOut.panic
  | fuel + 1 =>
    if value = 0 then EncOut.ok index buf
    else if tmod10 value < 0 then EncOut.panic
    else if index < buf.length then
      let buf2 := buf.set index (48 + (tmod10 value).toNat)
      if buf2.length < index + 1 then EncOut.fail buf2
      else itos_loop fuel buf2 (index + 1) (tdiv10 value)
    else EncOut.panic

/-- `itos::<T>` (wire_format.rs lines 72-119) for a `w`-bit signed integer.
`value * T::from_i8(-1)` wraps in two's complement; only the minimum value
overflows that negation, and it wraps to itself.  The sign byte is written
after the digits with no bounds check in the source ("we don't need to check
for length here"), so it too is an out-of-bounds fault when the digits
filled the buffer exactly. -/
def itos (w : Nat) (value : Int) (buf : List Nat) : EncOut :=
  if buf.length = 0 then EncOut.fail buf
  else if value = 0 then EncOut.ok 1 (buf.set 0 48)
  else
    let value2 := if value < 0 then (if value = intMin w then intMin w else -value) else value
    match itos_loop (value2.natAbs + 1) buf 0 value2 with
    | EncOut.ok index buf2 =>
      if value < 0 then
        if index < buf2.length then
          EncOut.ok (index + 1)
            (((buf2.set index 45).take (index + 1)).reverse ++ (buf2.set index 45).drop (index + 1))
        else EncOut.panic
      else EncOut.ok index ((buf2.take index).reverse ++ buf2.drop index)
    | r => r

/-- `IntField::parse` (data_types/int.rs lines 11-19):
`all_consuming(atoi::<i64>)`. -/
def IntField_parse (i : List Nat) : Option Int := all_consuming (atoi 64) i

/-- `UnsignedIntField::parse` (data_types/int.rs lines 25-33):
`all_consuming(u_atoi::<u64>)`. -/
def UnsignedIntField_parse (i : List Nat) : Option Nat :=
  all_consuming (u_atoi (2 ^ 64 - 1)) i

/-- `DayOfMonthField::parse` (data_types/int.rs lines 47-55):
`all_consuming(verify(u_atoi::<u8>, |v| 1 <= *v && *v <= 31))`. -/
def DayOfMonthField_parse (i : List Nat) : Option Nat :=
  all_consuming (verifyP (u_atoi 255) (fun v => decide (1 ≤ v) && decide (v ≤ 31))) i

/-- `TagNumField::parse` (data_types/int.rs lines 61-69):
`all_consuming(tagnum)`. -/
def TagNumField_parse (i : List Nat) : Option Nat := all_consuming tagnum i

/-- The default FIX delimiter byte, ASCII SOH (lib.rs line 11). -/
def SOH : Nat := 1

/-- Modelled from the spec: `StringField::parse` in
src/fixity-core/src/data_types/string.rs is an `unimplemented!()` stub, so
the decode rule is taken from spec section 4.3: "scan for a run of bytes not
containing the delimiter byte, require non-empty, require full
consumption". -/
def StringField_parse (i : List Nat) : Option (List Nat) :=
  all_consuming (take_till1 (fun c => c == SOH)) i

/-- Modelled from the spec: `DataField::parse` in
src/fixity-core/src/data_types/string.rs is an `unimplemented!()` stub, so
the decode rule is taken from spec section 4.3: "pass the slice through
unchanged", "requires non-empty; delimiter-ambivalent". -/
def DataField_parse (i : List Nat) : Option (List Nat) :=
  if i.isEmpty then none else some i


/-! Helper lemmas: unfolding equations and characterizations of the parsers. -/

lemma dv_nil (acc : Nat) : digitsVal acc [] = acc := rfl

lemma dv_cons (acc d : Nat) (ds : List Nat) :
    digitsVal acc (d :: ds) = digitsVal (acc * 10 + (d - 48)) ds := rfl

lemma digitsVal_le (ds : List Nat) : ∀ acc, acc ≤ digitsVal acc ds := by
  induction ds with
  | nil => intro acc; exact Nat.le_refl _
  | cons d ds ih =>
    intro acc
    calc acc ≤ acc * 10 + (d - 48) := by omega
    _ ≤ digitsVal (acc * 10 + (d - 48)) ds := ih _

lemma uFold_nil (mx acc : Nat) : uFold mx acc [] = some acc := rfl

lemma uFold_cons (mx acc d : Nat) (ds : List Nat) :
    uFold mx acc (d :: ds) =
      if acc * 10 ≤ mx then
        if acc * 10 + (d - 48) ≤ mx then uFold mx (acc * 10 + (d - 48)) ds
        else none
      else none := rfl

lemma uFold_eq (mx : Nat) (ds : List Nat) : ∀ acc, acc ≤ mx →
    uFold mx acc ds =
      if digitsVal acc ds ≤ mx then some (digitsVal acc ds) else none := by
  induction ds with
  | nil =>
    intro acc h
    rw [uFold_nil, dv_nil, if_pos h]
  | cons d ds ih =>
    intro acc h
    rw [uFold_cons, dv_cons]
    by_cases h1 : acc * 10 ≤ mx
    · by_cases h2 : acc * 10 + (d - 48) ≤ mx
      · rw [if_pos h1, if_pos h2, ih _ h2]
      · rw [if_pos h1, if_neg h2, if_neg]
        have := digitsVal_le ds (acc * 10 + (d - 48)); omega
    · rw [if_neg h1, if_neg]
      have := digitsVal_le ds (acc * 10 + (d - 48)); omega

lemma sFold_nil (w : Nat) (neg : Bool) (v : Int) : sFold w neg v [] = some v := rfl

lemma sFold_cons_false (w : Nat) (v : Int) (d : Nat) (ds : List Nat) :
    sFold w false v (d :: ds) =
      if -((2 ^ (w - 1) : Nat) : Int) ≤ v * 10 ∧ v * 10 ≤ ((2 ^ (w - 1) : Nat) : Int) - 1 then
        if -((2 ^ (w - 1) : Nat) : Int) ≤ v * 10 + ((d - 48 : Nat) : Int) ∧
            v * 10 + ((d - 48 : Nat) : Int) ≤ ((2 ^ (w - 1) : Nat) : Int) - 1 then
          sFold w false (v * 10 + ((d - 48 : Nat) : Int)) ds
        else none
      else none := rfl

lemma sFold_cons_true (w : Nat) (v : Int) (d : Nat) (ds : List Nat) :
    sFold w true v (d :: ds) =
      if -((2 ^ (w - 1) : Nat) : Int) ≤ v * 10 ∧ v * 10 ≤ ((2 ^ (w - 1) : Nat) : Int) - 1 then
        if -((2 ^ (w - 1) : Nat) : Int) ≤ v * 10 + -((d - 48 : Nat) : Int) ∧
            v * 10 + -((d - 48 : Nat) : Int) ≤ ((2 ^ (w - 1) : Nat) : Int) - 1 then
          sFold w true (v * 10 + -((d - 48 : Nat) : Int)) ds
        else none
      else none := rfl

lemma sFold_pos_eq (w : Nat) (ds : List Nat) : ∀ n : Nat, n ≤ 2 ^ (w - 1) - 1 →
    sFold w false ((n : Nat) : Int) ds =
      if digitsVal n ds ≤ 2 ^ (w - 1) - 1 then some ((digitsVal n ds : Nat) : Int)
      else none := by
  induction ds with
  | nil => intro n h; rw [sFold_nil, dv_nil, if_pos h]
  | cons d ds ih =>
    intro n h
    have hp : 0 < 2 ^ (w - 1) := pow_pos (by norm_num) _
    rw [sFold_cons_false, dv_cons]
    have hcast : ((n : Nat) : Int) * 10 + ((d - 48 : Nat) : Int) =
        ((n * 10 + (d - 48) : Nat) : Int) := by push_cast; ring
    rw [hcast]
    by_cases h1 : n * 10 ≤ 2 ^ (w - 1) - 1
    · by_cases h2 : n * 10 + (d - 48) ≤ 2 ^ (w - 1) - 1
      · rw [if_pos (by omega), if_pos (by omega), ih _ h2]
      · rw [if_pos (by omega), if_neg (by omega), if_neg]
        have := digitsVal_le ds (n * 10 + (d - 48)); omega
    · rw [if_neg (by omega), if_neg]
      have := digitsVal_le ds (n * 10 + (d - 48)); omega

lemma sFold_neg_eq (w : Nat) (ds : List Nat) : ∀ n : Nat, n ≤ 2 ^ (w - 1) →
    sFold w true (-((n : Nat) : Int)) ds =
      if digitsVal n ds ≤ 2 ^ (w - 1) then some (-((digitsVal n ds : Nat) : Int))
      else none := by
  induction ds with
  | nil => intro n h; rw [sFold_nil, dv_nil, if_pos h]
  | cons d ds ih =>
    intro n h
    have hp : 0 < 2 ^ (w - 1) := pow_pos (by norm_num) _
    rw [sFold_cons_true, dv_cons]
    have hcast : -((n : Nat) : Int) * 10 + -((d - 48 : Nat) : Int) =
        -(((n * 10 + (d - 48) : Nat)) : Int) := by push_cast; ring
    rw [hcast]
    by_cases h1 : n * 10 ≤ 2 ^ (w - 1)
    · by_cases h2 : n * 10 + (d - 48) ≤ 2 ^ (w - 1)
      · rw [if_pos (by omega), if_pos (by omega), ih _ h2]
      · rw [if_pos (by omega), if_neg (by omega), if_neg]
        have := digitsVal_le ds (n * 10 + (d - 48)); omega
    · rw [if_neg (by omega), if_neg]
      have := digitsVal_le ds (n * 10 + (d - 48)); omega


lemma takeWhile_append_of_all {p : Nat → Bool} :
    ∀ (xs : List Nat) {y : Nat} (rest : List Nat), (∀ x ∈ xs, p x = true) → p y = false →
      (xs ++ y :: rest).takeWhile p = xs := by
  intro xs
  induction xs with
  | nil => intro y rest _ hy; simp [List.takeWhile, hy]
  | cons a l ih =>
    intro y rest hall hy
    have ha : p a = true := hall a (List.mem_cons_self a l)
    simp only [List.cons_append, List.takeWhile_cons, ha, if_true]
    rw [ih rest (fun x hx => hall x (List.mem_cons_of_mem a hx)) hy]

lemma dropWhile_append_of_all {p : Nat → Bool} :
    ∀ (xs : List Nat) {y : Nat} (rest : List Nat), (∀ x ∈ xs, p x = true) → p y = false →
      (xs ++ y :: rest).dropWhile p = y :: rest := by
  intro xs
  induction xs with
  | nil => intro y rest _ hy; simp [List.dropWhile, hy]
  | cons a l ih =>
    intro y rest hall hy
    have ha : p a = true := hall a (List.mem_cons_self a l)
    simp only [List.cons_append, List.dropWhile_cons, ha, if_true]
    exact ih rest (fun x hx => hall x (List.mem_cons_of_mem a hx)) hy

lemma dropWhile_ne_nil_of_mem {p : Nat → Bool} :
    ∀ {l : List Nat} {x : Nat}, x ∈ l → p x = false → l.dropWhile p ≠ [] := by
  intro l
  induction l with
  | nil => intro x hx; cases hx
  | cons a l ih =>
    intro x hx hpx
    rcases List.mem_cons.mp hx with h | h
    · subst h
      simp [List.dropWhile_cons, hpx]
    · by_cases hpa : p a = true
      · simpa [List.dropWhile_cons, hpa] using ih h hpx
      · simp [List.dropWhile_cons, hpa]

lemma byteP_eq_some {b : Nat} {i rem : List Nat} {c : Nat} :
    byteP b i = some (rem, c) ↔ i = b :: rem ∧ c = b := by
  cases i with
  | nil =>
    constructor
    · intro h; exact absurd h (by simp [byteP])
    · rintro ⟨h, -⟩; cases h
  | cons a l =>
    simp only [byteP]
    by_cases h : a = b
    · subst h
      rw [if_pos (show a = a from rfl)]
      constructor
      · intro h2
        have h3 := Option.some.inj h2
        have h4 : l = rem := congrArg Prod.fst h3
        have h5 : a = c := congrArg Prod.snd h3
        exact ⟨by rw [h4], h5.symm⟩
      · rintro ⟨h1, h2⟩
        have h4 : l = rem := (List.cons.inj h1).2
        rw [h4, h2]
    · rw [if_neg h]
      constructor
      · intro hh; cases hh
      · rintro ⟨h1, -⟩
        exact absurd (List.cons.inj h1).1 h

lemma u_atoi_char (mx : Nat) (i : List Nat) :
    u_atoi mx i =
      if i.takeWhile isDigit = [] then none
      else if digitsVal 0 (i.takeWhile isDigit) ≤ mx then
        some (i.dropWhile isDigit, digitsVal 0 (i.takeWhile isDigit))
      else none := by
  unfold u_atoi digit1
  by_cases h : i.takeWhile isDigit = []
  · rw [if_pos h, if_pos h]
  · rw [if_neg h, if_neg h]
    show (match uFold mx 0 (i.takeWhile isDigit) with
      | none => none
      | some v => some (i.dropWhile isDigit, v)) = _
    rw [uFold_eq mx _ 0 (Nat.zero_le _)]
    by_cases h2 : digitsVal 0 (i.takeWhile isDigit) ≤ mx
    · rw [if_pos h2, if_pos h2]
    · rw [if_neg h2, if_neg h2]

lemma atoi_of_optP {w : Nat} {i i1 : List Nat} {sg : Option Nat}
    (h : optP (byteP 45) i = (i1, sg)) :
    atoi w i =
      match digit1 i1 with
      | none => none
      | some (rem, ds) =>
        match sFold w sg.isSome 0 ds with
        | none => none
        | some v => some (rem, v) := by
  unfold atoi
  rw [h]

lemma atoi_char_pos (w : Nat) (i : List Nat) (h : i.head? ≠ some 45) :
    atoi w i =
      if i.takeWhile isDigit = [] then none
      else if digitsVal 0 (i.takeWhile isDigit) ≤ 2 ^ (w - 1) - 1 then
        some (i.dropWhile isDigit, ((digitsVal 0 (i.takeWhile isDigit) : Nat) : Int))
      else none := by
  have hopt : optP (byteP 45) i = (i, none) := by
    cases i with
    | nil => rfl
    | cons c rest =>
      have hc : ¬ c = 45 := by
        intro hc; exact h (by rw [hc]; rfl)
      simp only [optP, byteP]
      rw [if_neg hc]
  rw [atoi_of_optP hopt]
  unfold digit1
  by_cases h1 : i.takeWhile isDigit = []
  · rw [if_pos h1, if_pos h1]
  · rw [if_neg h1, if_neg h1]
    show (match sFold w false 0 (i.takeWhile isDigit) with
      | none => none
      | some v => some (i.dropWhile isDigit, v)) = _
    have h0 : ((0 : Nat) : Int) = (0 : Int) := rfl
    rw [← h0, sFold_pos_eq w _ 0 (Nat.zero_le _)]
    by_cases h2 : digitsVal 0 (i.takeWhile isDigit) ≤ 2 ^ (w - 1) - 1
    · rw [if_pos h2, if_pos h2]
    · rw [if_neg h2, if_neg h2]

lemma atoi_char_neg (w : Nat) (rest : List Nat) :
    atoi w (45 :: rest) =
      if rest.takeWhile isDigit = [] then none
      else if digitsVal 0 (rest.takeWhile isDigit) ≤ 2 ^ (w - 1) then
        some (rest.dropWhile isDigit, -((digitsVal 0 (rest.takeWhile isDigit) : Nat) : Int))
      else none := by
  have hopt : optP (byteP 45) (45 :: rest) = (rest, some 45) := rfl
  rw [atoi_of_optP hopt]
  unfold digit1
  by_cases h1 : rest.takeWhile isDigit = []
  · rw [if_pos h1, if_pos h1]
  · rw [if_neg h1, if_neg h1]
    show (match sFold w true 0 (rest.takeWhile isDigit) with
      | none => none
      | some v => some (rest.dropWhile isDigit, v)) = _
    have h0 : (-((0 : Nat) : Int)) = (0 : Int) := by norm_num
    rw [← h0, sFold_neg_eq w _ 0 (Nat.zero_le _)]
    by_cases h2 : digitsVal 0 (rest.takeWhile isDigit) ≤ 2 ^ (w - 1)
    · rw [if_pos h2, if_pos h2]
    · rw [if_neg h2, if_neg h2]

lemma tagnum_char (i : List Nat) :
    tagnum i = if i.head? = some 48 then none else u_atoi 65535 i := by
  cases i with
  | nil =>
    rw [if_neg (by simp)]
    rfl
  | cons c rest =>
    by_cases hc : c = 48
    · subst hc
      rw [if_pos (show ((48 : Nat) :: rest).head? = some 48 from rfl)]
      simp [tagnum, optP, isA0, List.takeWhile_cons]
    · rw [if_neg (by simp [hc])]
      simp [tagnum, optP, isA0, List.takeWhile_cons, hc]

lemma take_till1_eq_some {p : Nat → Bool} {i rem v : List Nat} :
    take_till1 p i = some (rem, v) ↔
      i.takeWhile (fun b => !p b) ≠ [] ∧ v = i.takeWhile (fun b => !p b) ∧
      rem = i.dropWhile (fun b => !p b) := by
  unfold take_till1
  by_cases h : i.takeWhile (fun b => !p b) = []
  · rw [if_pos h]
    simp [h]
  · rw [if_neg h]
    constructor
    · intro h2
      have h3 := Option.some.inj h2
      exact ⟨h, (congrArg Prod.snd h3).symm, (congrArg Prod.fst h3).symm⟩
    · rintro ⟨-, hv, hrem⟩
      rw [hv, hrem]

lemma takeP_eq_some {n : Nat} {i rem v : List Nat} :
    takeP n i = some (rem, v) ↔ n ≤ i.length ∧ v = i.take n ∧ rem = i.drop n := by
  unfold takeP
  by_cases h : n ≤ i.length
  · rw [if_pos h]
    constructor
    · intro h2
      have h3 := Option.some.inj h2
      exact ⟨h, (congrArg Prod.snd h3).symm, (congrArg Prod.fst h3).symm⟩
    · rintro ⟨-, hv, hrem⟩
      rw [hv, hrem]
  · rw [if_neg h]
    simp [h]

lemma head_eq_of_append_cons (ds rest : List Nat)
    (h : ds ≠ []) : (ds ++ rest).head? = ds.head? := by
  cases ds with
  | nil => exact absurd rfl h
  | cons a l => rfl

lemma tag_delimited_eq_some (delim : Nat) (i rem : List Nat) (t : Nat) (v : List Nat) :
    tag_delimited delim i = some (rem, t, v) ↔
      ∃ ds : List Nat, i = ds ++ 61 :: (v ++ delim :: rem) ∧ ds ≠ [] ∧
        (∀ b ∈ ds, isDigit b = true) ∧ ds.head? ≠ some 48 ∧
        digitsVal 0 ds = t ∧ t ≤ 65535 ∧ v ≠ [] ∧ delim ∉ v := by
  constructor
  · intro h
    unfold tag_delimited at h
    split at h
    · cases h
    next i1 t1 htag =>
      split at h
      · cases h
      next i2 b2 hbyte =>
        split at h
        · cases h
        next i3 v3 htake =>
          split at h
          · cases h
          next i4 b4 hdelim =>
            have h5 := Option.some.inj h
            have hrem : i4 = rem := congrArg Prod.fst h5
            have ht : t1 = t := congrArg (fun q => q.2.1) h5
            have hv : v3 = v := congrArg (fun q => q.2.2) h5
            rw [tagnum_char] at htag
            split at htag
            · cases htag
            next hhead =>
              rw [u_atoi_char] at htag
              split at htag
              · cases htag
              next htw =>
                split at htag
                · next hle =>
                  have h6 := Option.some.inj htag
                  have hi1 : i.dropWhile isDigit = i1 := congrArg Prod.fst h6
                  have ht1 : digitsVal 0 (i.takeWhile isDigit) = t1 := congrArg Prod.snd h6
                  obtain ⟨hi1eq, -⟩ := byteP_eq_some.mp hbyte
                  obtain ⟨htwne, hv3, hi3⟩ := take_till1_eq_some.mp htake
                  obtain ⟨hi3eq, -⟩ := byteP_eq_some.mp hdelim
                  have hi2 : i2 = v3 ++ delim :: i4 := by
                    conv_lhs => rw [← List.takeWhile_append_dropWhile
                        (fun b => !(b == delim)) i2]
                    rw [← hv3, ← hi3, hi3eq]
                  have h7 : digitsVal 0 (i.takeWhile isDigit) = t := ht1.trans ht
                  refine ⟨i.takeWhile isDigit, ?_, htw, ?_, ?_, h7, ?_, ?_, ?_⟩
                  · conv_lhs => rw [← List.takeWhile_append_dropWhile isDigit i]
                    rw [hi1, hi1eq, hi2, hv, hrem]
                  · intro b hb
                    exact List.mem_takeWhile_imp hb
                  · rw [← head_eq_of_append_cons (i.takeWhile isDigit) (i.dropWhile isDigit) htw,
                        List.takeWhile_append_dropWhile]
                    exact hhead
                  · exact h7.symm.trans_le hle
                  · rw [← hv, hv3]
                    exact htwne
                  · intro hmem
                    rw [← hv, hv3] at hmem
                    have := List.mem_takeWhile_imp hmem
                    simp at this
                · cases htag
  · rintro ⟨ds, hi, hne, hdig, hhead, hval, hle, hvne, hvd⟩
    have htw : i.takeWhile isDigit = ds := by
      rw [hi]; exact takeWhile_append_of_all ds _ hdig (by decide)
    have hdw : i.dropWhile isDigit = 61 :: (v ++ delim :: rem) := by
      rw [hi]; exact dropWhile_append_of_all ds _ hdig (by decide)
    have hh : i.head? ≠ some 48 := by
      rw [hi, head_eq_of_append_cons ds (61 :: (v ++ delim :: rem)) hne]
      exact hhead
    have htagnum : tagnum i = some (61 :: (v ++ delim :: rem), t) := by
      rw [tagnum_char, if_neg hh, u_atoi_char, htw, hdw, if_neg hne,
          if_pos (hval.trans_le hle), hval]
    have hall : ∀ b ∈ v, (fun b => !(b == delim)) b = true := by
      intro b hb
      have : b ≠ delim := fun hbd => hvd (hbd ▸ hb)
      simp [this]
    have htkv : (v ++ delim :: rem).takeWhile (fun b => !(b == delim)) = v :=
      takeWhile_append_of_all v rem hall (by simp)
    have hdkv : (v ++ delim :: rem).dropWhile (fun b => !(b == delim)) = delim :: rem :=
      dropWhile_append_of_all v rem hall (by simp)
    have ht1 : take_till1 (fun c => c == delim) (v ++ delim :: rem) = some (delim :: rem, v) := by
      unfold take_till1
      rw [htkv, hdkv, if_neg hvne]
    unfold tag_delimited
    rw [htagnum]
    show (match byteP 61 (61 :: (v ++ delim :: rem)) with
      | none => none
      | some (i2, _) =>
        match take_till1 (fun c => c == delim) i2 with
        | none => none
        | some (i3, vv) =>
          match byteP delim i3 with
          | none => none
          | some (i4, _) => some (i4, t, vv)) = some (rem, t, v)
    rw [show byteP 61 (61 :: (v ++ delim :: rem)) = some (v ++ delim :: rem, 61) by simp [byteP]]
    show (match take_till1 (fun c => c == delim) (v ++ delim :: rem) with
      | none => none
      | some (i3, vv) =>
        match byteP delim i3 with
        | none => none
        | some (i4, _) => some (i4, t, vv)) = some (rem, t, v)
    rw [ht1]
    show (match byteP delim (delim :: rem) with
      | none => none
      | some (i4, _) => some (i4, t, v)) = some (rem, t, v)
    rw [show byteP delim (delim :: rem) = some (rem, delim) by simp [byteP]]

lemma data_tag_delimited_eq_some (delim len : Nat) (i rem : List Nat) (t : Nat)
    (v : List Nat) :
    data_tag_delimited delim len i = some (rem, t, v) ↔
      ∃ ds : List Nat, i = ds ++ 61 :: (v ++ delim :: rem) ∧ ds ≠ [] ∧
        (∀ b ∈ ds, isDigit b = true) ∧ ds.head? ≠ some 48 ∧
        digitsVal 0 ds = t ∧ t ≤ 65535 ∧ v.length = len := by
  constructor
  · intro h
    unfold data_tag_delimited at h
    split at h
    · cases h
    next i1 t1 htag =>
      split at h
      · cases h
      next i2 b2 hbyte =>
        split at h
        · cases h
        next i3 v3 htake =>
          split at h
          · cases h
          next i4 b4 hdelim =>
            have h5 := Option.some.inj h
            have hrem : i4 = rem := congrArg Prod.fst h5
            have ht : t1 = t := congrArg (fun q => q.2.1) h5
            have hv : v3 = v := congrArg (fun q => q.2.2) h5
            rw [tagnum_char] at htag
            split at htag
            · cases htag
            next hhead =>
              rw [u_atoi_char] at htag
              split at htag
              · cases htag
              next htw =>
                split at htag
                · next hle =>
                  have h6 := Option.some.inj htag
                  have hi1 : i.dropWhile isDigit = i1 := congrArg Prod.fst h6
                  have ht1 : digitsVal 0 (i.takeWhile isDigit) = t1 := congrArg Prod.snd h6
                  obtain ⟨hlen, hv3, hi3⟩ := takeP_eq_some.mp htake
                  obtain ⟨hi1eq, -⟩ := byteP_eq_some.mp hbyte
                  obtain ⟨hi3eq, -⟩ := byteP_eq_some.mp hdelim
                  have hi2 : i2 = v3 ++ delim :: i4 := by
                    conv_lhs => rw [← List.take_append_drop len i2]
                    rw [← hv3, ← hi3, hi3eq]
                  have h7 : digitsVal 0 (i.takeWhile isDigit) = t := ht1.trans ht
                  refine ⟨i.takeWhile isDigit, ?_, htw, ?_, ?_, h7, ?_, ?_⟩
                  · conv_lhs => rw [← List.takeWhile_append_dropWhile isDigit i]
                    rw [hi1, hi1eq, hi2, hv, hrem]
                  · intro b hb
                    exact List.mem_takeWhile_imp hb
                  · rw [← head_eq_of_append_cons (i.takeWhile isDigit) (i.dropWhile isDigit) htw,
                        List.takeWhile_append_dropWhile]
                    exact hhead
                  · exact h7.symm.trans_le hle
                  · rw [← hv, hv3, List.length_take]
                    exact Nat.min_eq_left hlen
                · cases htag
  · rintro ⟨ds, hi, hne, hdig, hhead, hval, hle, hlen⟩
    have htw : i.takeWhile isDigit = ds := by
      rw [hi]; exact takeWhile_append_of_all ds _ hdig (by decide)
    have hdw : i.dropWhile isDigit = 61 :: (v ++ delim :: rem) := by
      rw [hi]; exact dropWhile_append_of_all ds _ hdig (by decide)
    have hh : i.head? ≠ some 48 := by
      rw [hi, head_eq_of_append_cons ds (61 :: (v ++ delim :: rem)) hne]
      exact hhead
    have htagnum : tagnum i = some (61 :: (v ++ delim :: rem), t) := by
      rw [tagnum_char, if_neg hh, u_atoi_char, htw, hdw, if_neg hne,
          if_pos (hval.trans_le hle), hval]
    have htk : takeP len (v ++ delim :: rem) = some (delim :: rem, v) := by
      unfold takeP
      rw [if_pos (by rw [← hlen]; simp), ← hlen, List.take_left, List.drop_left]
    unfold data_tag_delimited
    rw [htagnum]
    show (match byteP 61 (61 :: (v ++ delim :: rem)) with
      | none => none
      | some (i2, _) =>
        match takeP len i2 with
        | none => none
        | some (i3, vv) =>
          match byteP delim i3 with
          | none => none
          | some (i4, _) => some (i4, t, vv)) = some (rem, t, v)
    rw [show byteP 61 (61 :: (v ++ delim :: rem)) = some (v ++ delim :: rem, 61) by simp [byteP]]
    show (match takeP len (v ++ delim :: rem) with
      | none => none
      | some (i3, vv) =>
        match byteP delim i3 with
        | none => none
        | some (i4, _) => some (i4, t, vv)) = some (rem, t, v)
    rw [htk]
    show (match byteP delim (delim :: rem) with
      | none => none
      | some (i4, _) => some (i4, t, v)) = some (rem, t, v)
    rw [show byteP delim (delim :: rem) = some (rem, delim) by simp [byteP]]

/-!
Claim theorems.  Each theorem below settles one claim of the specification
against the embedded code.
-/

/-- C1: the round-trip claim — for every representable signed 64-bit value
and a large enough buffer, encoding then decoding restores the value with
canonical bytes — fails on the code at the minimum value: `itos` negates
via `value * -1`, which wraps at `i64::MIN`, and the loop then faults in
`(value % ten).to_usize().unwrap()` on the negative remainder.  This theorem
evaluates the embedded `itos` at the failing input: the 64-bit minimum with
a 20-byte buffer (exactly enough for its decimal representation) faults
instead of writing the canonical encoding. -/
theorem c1_itos_min_value_faults :
    itos 64 (intMin 64) (List.replicate 20 48) = EncOut.panic := by decide

/-- C4: the claim that `itos` and `u_itos` return `None` on every
too-small buffer, with no out-of-bounds write, fails on the code: the
capacity check runs only after `buf[index] = ASCII_DIGITS[c]` has already
indexed the buffer, so the first write past the end is an out-of-bounds
fault rather than a returned `None` (and the sign byte of `itos` is written
with no check at all).  Encoding 10 into a one-byte buffer faults in
`u_itos`, and encoding -1 into a one-byte buffer faults at the sign-byte
write of `itos`; only the zero-capacity buffer takes the `None` branch. -/
theorem c4_undersized_buffer_faults :
    u_itos 10 [48] = EncOut.panic ∧ itos 64 (-1) [48] = EncOut.panic ∧
    u_itos 10 [] = EncOut.fail [] := by
  exact ⟨by decide, by decide, by decide⟩

/-- C2: `split_tag` (`tag_delimited`) succeeds exactly when the buffer is a
no-leading-zero tag number (nonempty digits, first digit not the zero byte,
value at most 65535), the equals byte, a nonempty delimiter-free value run,
and the delimiter byte; on success it returns the tag number, the value
bytes, and the remainder after the delimiter.  Moreover on
`8=FIX.4.4|` with delimiter `|` it succeeds with tag 8, value `FIX.4.4`
and empty remainder; without the trailing delimiter it fails; with an empty
value it fails; and with tag text `012` it fails. -/
theorem c2_split_tag_characterization :
    (∀ (delim : Nat) (i rem : List Nat) (t : Nat) (v : List Nat),
      tag_delimited delim i = some (rem, t, v) ↔
        ∃ ds : List Nat, i = ds ++ 61 :: (v ++ delim :: rem) ∧ ds ≠ [] ∧
          (∀ b ∈ ds, isDigit b = true) ∧ ds.head? ≠ some 48 ∧
          digitsVal 0 ds = t ∧ t ≤ 65535 ∧ v ≠ [] ∧ delim ∉ v) ∧
    tag_delimited 124 [56, 61, 70, 73, 88, 46, 52, 46, 52, 124] =
      some ([], 8, [70, 73, 88, 46, 52, 46, 52]) ∧
    tag_delimited 124 [56, 61, 70, 73, 88, 46, 52, 46, 52] = none ∧
    tag_delimited 124 [56, 61, 124] = none ∧
    tag_delimited 124 [48, 49, 50, 61, 65, 124] = none :=
  ⟨tag_delimited_eq_some, by decide, by decide, by decide, by decide⟩

/-- Witness for C2: the characterization applied at the concrete input
`9=A|` with delimiter `|` proves the split succeeds with tag 9. -/
theorem c2_split_tag_characterization_witness :
    tag_delimited 124 [57, 61, 65, 124] = some ([], 9, [65]) :=
  (c2_split_tag_characterization.1 124 [57, 61, 65, 124] [] 9 [65]).mpr
    ⟨[57], by decide, by decide, by decide, by decide, by decide, by decide,
      by decide, by decide⟩

/-- C5: `split_data_tag` (`data_tag_delimited`) succeeds exactly when the
buffer is a no-leading-zero tag number, the equals byte, exactly `len`
verbatim value bytes (any byte values, the delimiter included), and a
single trailing delimiter byte; and against `8=FIX.4.4|` with delimiter `|`
the length 7 succeeds with value `FIX.4.4` while lengths 6 and 8 fail. -/
theorem c5_data_tag_exactness :
    (∀ (delim len : Nat) (i rem : List Nat) (t : Nat) (v : List Nat),
      data_tag_delimited delim len i = some (rem, t, v) ↔
        ∃ ds : List Nat, i = ds ++ 61 :: (v ++ delim :: rem) ∧ ds ≠ [] ∧
          (∀ b ∈ ds, isDigit b = true) ∧ ds.head? ≠ some 48 ∧
          digitsVal 0 ds = t ∧ t ≤ 65535 ∧ v.length = len) ∧
    data_tag_delimited 124 7 [56, 61, 70, 73, 88, 46, 52, 46, 52, 124] =
      some ([], 8, [70, 73, 88, 46, 52, 46, 52]) ∧
    data_tag_delimited 124 6 [56, 61, 70, 73, 88, 46, 52, 46, 52, 124] = none ∧
    data_tag_delimited 124 8 [56, 61, 70, 73, 88, 46, 52, 46, 52, 124] = none :=
  ⟨data_tag_delimited_eq_some, by decide, by decide, by decide⟩

/-- Witness for C5: the characterization applied at the concrete input
`8=|||` with delimiter `|` and length 2 proves the split succeeds with a
value that itself consists of two delimiter bytes. -/
theorem c5_data_tag_exactness_witness :
    data_tag_delimited 124 2 [56, 61, 124, 124, 124] = some ([], 8, [124, 124]) :=
  (c5_data_tag_exactness.1 124 2 [56, 61, 124, 124, 124] [] 8 [124, 124]).mpr
    ⟨[56], by decide, by decide, by decide, by decide, by decide, by decide, by decide⟩

/-- C10: for every buffer of the shape tag number, equals byte, delimiter
byte, splitting it as a data tag with caller-supplied length zero succeeds
and returns the empty value slice: data-tag splitting imposes no
non-emptiness requirement on the value. -/
theorem c10_data_tag_empty_value :
    ∀ (delim : Nat) (ds : List Nat), ds ≠ [] → (∀ b ∈ ds, isDigit b = true) →
      ds.head? ≠ some 48 → digitsVal 0 ds ≤ 65535 →
      data_tag_delimited delim 0 (ds ++ [61, delim]) =
        some ([], digitsVal 0 ds, []) := by
  intro delim ds h1 h2 h3 h4
  exact (data_tag_delimited_eq_some delim 0 (ds ++ [61, delim]) [] (digitsVal 0 ds) []).mpr
    ⟨ds, by simp, h1, h2, h3, rfl, h4, rfl⟩

/-- Witness for C10: applied at the concrete buffer `8=|` with delimiter
`|`, the zero-length data tag split succeeds with an empty value. -/
theorem c10_data_tag_empty_value_witness :
    data_tag_delimited 124 0 ([56] ++ [61, 124]) = some ([], digitsVal 0 [56], []) :=
  c10_data_tag_empty_value 124 [56] (by decide) (by decide) (by decide) (by decide)

/-- C3: decoding a digit run whose value exceeds the maximum of the target
width fails (the checked multiply and add return an error, never a wrapped
value) for the unsigned codec, for the signed codec on a positive run, and
for the signed codec on a negative run past the width minimum; at the
8-bit boundary, `255` decodes and `256` fails unsigned, `127` decodes and
`128` fails signed, and `-128` decodes while `-129` fails, so the minimum
representable signed value is reachable. -/
theorem c3_overflow_at_width_boundary :
    (∀ (mx : Nat) (i : List Nat), mx < digitsVal 0 (i.takeWhile isDigit) →
      u_atoi mx i = none) ∧
    (∀ (w : Nat) (i : List Nat), 2 ^ (w - 1) - 1 < digitsVal 0 (i.takeWhile isDigit) →
      atoi w i = none) ∧
    (∀ (w : Nat) (rest : List Nat), 2 ^ (w - 1) < digitsVal 0 (rest.takeWhile isDigit) →
      atoi w (45 :: rest) = none) ∧
    u_atoi 255 [50, 53, 53] = some ([], 255) ∧
    u_atoi 255 [50, 53, 54] = none ∧
    atoi 8 [49, 50, 55] = some ([], 127) ∧
    atoi 8 [49, 50, 56] = none ∧
    atoi 8 [45, 49, 50, 56] = some ([], -128) ∧
    atoi 8 [45, 49, 50, 57] = none := by
  refine ⟨?_, ?_, ?_, by decide, by decide, by decide, by decide, by decide, by decide⟩
  · intro mx i h
    rw [u_atoi_char]
    by_cases h1 : i.takeWhile isDigit = []
    · rw [h1, dv_nil] at h
      exact absurd h (by omega)
    · rw [if_neg h1, if_neg (by omega)]
  · intro w i h
    by_cases hh : i.head? = some 45
    · cases i with
      | nil => cases hh
      | cons c rest =>
        have hc : c = 45 := by
          have := Option.some.inj hh
          exact this
        subst hc
        rw [show (45 :: rest).takeWhile isDigit = [] from by
          simp [List.takeWhile_cons, isDigit], dv_nil] at h
        exact absurd h (by omega)
    · rw [atoi_char_pos w i hh]
      by_cases h1 : i.takeWhile isDigit = []
      · rw [if_pos h1]
      · rw [if_neg h1, if_neg (by omega)]
  · intro w rest h
    rw [atoi_char_neg]
    by_cases h1 : rest.takeWhile isDigit = []
    · rw [if_pos h1]
    · rw [if_neg h1, if_neg (by omega)]

/-- Witness for C3: the three general overflow statements applied at
concrete 8-bit inputs: unsigned `256`, signed `128`, signed `-129`. -/
theorem c3_overflow_at_width_boundary_witness :
    u_atoi 255 [50, 53, 54] = none ∧ atoi 8 [49, 50, 56] = none ∧
    atoi 8 [45, 49, 50, 57] = none :=
  ⟨c3_overflow_at_width_boundary.1 255 [50, 53, 54] (by decide),
   c3_overflow_at_width_boundary.2.1 8 [49, 50, 56] (by decide),
   c3_overflow_at_width_boundary.2.2.1 8 [49, 50, 57] (by decide)⟩

/-- C9: tag text that encodes the number zero is always rejected: `tagnum`
fails on any input whose first byte is the zero digit (hence on the single
byte `0` and on every run of `0` bytes), `TagNumField::parse` fails on
every run of `0` bytes, and `split_tag` fails on any buffer whose tag text
starts with the zero digit — the code resolves the open question of the
specification by rejecting tag number zero before digit accumulation. -/
theorem c9_tag_zero_rejected :
    (∀ i : List Nat, i.head? = some 48 → tagnum i = none) ∧
    (∀ k : Nat, 0 < k → tagnum (List.replicate k 48) = none) ∧
    (∀ k : Nat, 0 < k → TagNumField_parse (List.replicate k 48) = none) ∧
    (∀ (delim : Nat) (i : List Nat), i.head? = some 48 →
      tag_delimited delim i = none) ∧
    TagNumField_parse [48] = none := by
  have h1 : ∀ i : List Nat, i.head? = some 48 → tagnum i = none := by
    intro i h
    rw [tagnum_char, if_pos h]
  have hrep : ∀ k : Nat, 0 < k → (List.replicate k 48).head? = some 48 := by
    intro k hk
    cases k with
    | zero => exact absurd hk (by omega)
    | succ m => rw [List.replicate_succ]; rfl
  refine ⟨h1, ?_, ?_, ?_, by decide⟩
  · intro k hk
    exact h1 _ (hrep k hk)
  · intro k hk
    unfold TagNumField_parse all_consuming
    rw [h1 _ (hrep k hk)]
  · intro delim i h
    unfold tag_delimited
    rw [h1 i h]

/-- Witness for C9: the head-byte statement applied at the two-byte tag
text `01`, and the replicate statements applied at the single byte `0`. -/
theorem c9_tag_zero_rejected_witness :
    tagnum [48, 49] = none ∧ tagnum (List.replicate 1 48) = none ∧
    TagNumField_parse (List.replicate 1 48) = none ∧
    tag_delimited 124 [48, 61, 65, 124] = none :=
  ⟨c9_tag_zero_rejected.1 [48, 49] (by decide),
   c9_tag_zero_rejected.2.1 1 (by decide),
   c9_tag_zero_rejected.2.2.1 1 (by decide),
   c9_tag_zero_rejected.2.2.2.1 124 [48, 61, 65, 124] (by decide)⟩

/-- C7: every typed field decode requires full consumption of its input:
whenever the underlying rule succeeds leaving a nonempty remainder, the
field parse returns an error instead of the prefix value — stated for
`all_consuming` generically, instantiated at every field type, and
evaluated at the concrete inputs `1234|` for the integer fields. -/
theorem c7_full_consumption_required :
    (∀ (α : Type) (p : List Nat → Option (List Nat × α)) (i rem : List Nat) (v : α),
      p i = some (rem, v) → rem ≠ [] → all_consuming p i = none) ∧
    (∀ (i rem : List Nat) (v : Int), atoi 64 i = some (rem, v) → rem ≠ [] →
      IntField_parse i = none) ∧
    (∀ (i rem : List Nat) (v : Nat), u_atoi (2 ^ 64 - 1) i = some (rem, v) → rem ≠ [] →
      UnsignedIntField_parse i = none) ∧
    (∀ (i rem : List Nat) (v : Nat),
      verifyP (u_atoi 255) (fun v => decide (1 ≤ v) && decide (v ≤ 31)) i = some (rem, v) →
      rem ≠ [] → DayOfMonthField_parse i = none) ∧
    (∀ (i rem : List Nat) (v : Nat), tagnum i = some (rem, v) → rem ≠ [] →
      TagNumField_parse i = none) ∧
    (∀ (i rem v : List Nat), take_till1 (fun c => c == SOH) i = some (rem, v) → rem ≠ [] →
      StringField_parse i = none) ∧
    IntField_parse [49, 50, 51, 52, 124] = none ∧
    UnsignedIntField_parse [49, 50, 51, 52, 124] = none := by
  have g : ∀ (α : Type) (p : List Nat → Option (List Nat × α)) (i rem : List Nat) (v : α),
      p i = some (rem, v) → rem ≠ [] → all_consuming p i = none := by
    intro α p i rem v hp hrem
    unfold all_consuming
    rw [hp]
    cases rem with
    | nil => exact absurd rfl hrem
    | cons a l => rfl
  refine ⟨g, ?_, ?_, ?_, ?_, ?_, by decide, by decide⟩
  · intro i rem v hp hrem
    exact g Int (atoi 64) i rem v hp hrem
  · intro i rem v hp hrem
    exact g Nat (u_atoi (2 ^ 64 - 1)) i rem v hp hrem
  · intro i rem v hp hrem
    exact g Nat (verifyP (u_atoi 255) (fun v => decide (1 ≤ v) && decide (v ≤ 31))) i rem v hp hrem
  · intro i rem v hp hrem
    exact g Nat tagnum i rem v hp hrem
  · intro i rem v hp hrem
    exact g (List Nat) (take_till1 (fun c => c == SOH)) i rem v hp hrem

/-- Witness for C7: the signed and unsigned instances applied at the
concrete input `1234|`, whose underlying integer rule succeeds on the
prefix `1234` leaving the delimiter unconsumed. -/
theorem c7_full_consumption_required_witness :
    IntField_parse [49, 50, 51, 52, 124] = none ∧
    UnsignedIntField_parse [49, 50, 51, 52, 124] = none :=
  ⟨c7_full_consumption_required.2.1 [49, 50, 51, 52, 124] [124] 1234 (by decide) (by decide),
   c7_full_consumption_required.2.2.1 [49, 50, 51, 52, 124] [124] 1234 (by decide) (by decide)⟩

lemma DayOfMonth_char (i : List Nat) :
    DayOfMonthField_parse i =
      if i.takeWhile isDigit = [] then none
      else if digitsVal 0 (i.takeWhile isDigit) ≤ 255 then
        if 1 ≤ digitsVal 0 (i.takeWhile isDigit) ∧ digitsVal 0 (i.takeWhile isDigit) ≤ 31 then
          if i.dropWhile isDigit = [] then some (digitsVal 0 (i.takeWhile isDigit)) else none
        else none
      else none := by
  unfold DayOfMonthField_parse verifyP all_consuming
  beta_reduce
  rw [u_atoi_char]
  by_cases h1 : i.takeWhile isDigit = []
  · rw [if_pos h1, if_pos h1]
  · rw [if_neg h1, if_neg h1]
    by_cases h2 : digitsVal 0 (i.takeWhile isDigit) ≤ 255
    · rw [if_pos h2, if_pos h2]
      by_cases h3 : 1 ≤ digitsVal 0 (i.takeWhile isDigit) ∧ digitsVal 0 (i.takeWhile isDigit) ≤ 31
      · rw [if_pos h3]
        have hb : (decide (1 ≤ digitsVal 0 (i.takeWhile isDigit)) &&
            decide (digitsVal 0 (i.takeWhile isDigit) ≤ 31)) = true := by
          simp only [Bool.and_eq_true, decide_eq_true_eq]
          exact h3
        simp only [hb, if_true]
        by_cases h4 : i.dropWhile isDigit = []
        · rw [h4, if_pos (show ([] : List Nat) = [] from rfl)]
        · rw [if_neg h4]
          cases hdd : i.dropWhile isDigit with
          | nil => exact absurd hdd h4
          | cons a l => rfl
      · rw [if_neg h3]
        have hb : (decide (1 ≤ digitsVal 0 (i.takeWhile isDigit)) &&
            decide (digitsVal 0 (i.takeWhile isDigit) ≤ 31)) = false := by
          simp only [Bool.and_eq_false_iff, decide_eq_false_iff_not]
          by_cases hx : 1 ≤ digitsVal 0 (i.takeWhile isDigit)
          · right; intro hy; exact h3 ⟨hx, hy⟩
          · left; exact hx
        simp only [hb]
        rfl
    · rw [if_neg h2, if_neg h2]

/-- C8: `DayOfMonthField::parse` succeeds exactly when the whole input is a
digit run whose decimal value lies in the range of one to thirty-one, in
which case the value is returned; the boundary inputs `1` and `31` decode
to 1 and 31, while `0`, `32`, and the 8-bit overflow `257` are errors. -/
theorem c8_day_of_month_range :
    (∀ (i : List Nat) (v : Nat), DayOfMonthField_parse i = some v ↔
      i ≠ [] ∧ (∀ b ∈ i, isDigit b = true) ∧ 1 ≤ digitsVal 0 i ∧
      digitsVal 0 i ≤ 31 ∧ v = digitsVal 0 i) ∧
    DayOfMonthField_parse [49] = some 1 ∧
    DayOfMonthField_parse [51, 49] = some 31 ∧
    DayOfMonthField_parse [48] = none ∧
    DayOfMonthField_parse [51, 50] = none ∧
    DayOfMonthField_parse [50, 53, 55] = none := by
  refine ⟨?_, by decide, by decide, by decide, by decide, by decide⟩
  intro i v
  rw [DayOfMonth_char]
  constructor
  · intro h
    by_cases h1 : i.takeWhile isDigit = []
    · rw [if_pos h1] at h
      cases h
    rw [if_neg h1] at h
    by_cases h2 : digitsVal 0 (i.takeWhile isDigit) ≤ 255
    · rw [if_pos h2] at h
      by_cases h3 : 1 ≤ digitsVal 0 (i.takeWhile isDigit) ∧
          digitsVal 0 (i.takeWhile isDigit) ≤ 31
      · rw [if_pos h3] at h
        by_cases h4 : i.dropWhile isDigit = []
        · rw [if_pos h4] at h
          have hall : ∀ b ∈ i, isDigit b = true := List.dropWhile_eq_nil_iff.mp h4
          have htw : i.takeWhile isDigit = i := List.takeWhile_eq_self_iff.mpr hall
          have hv : digitsVal 0 (i.takeWhile isDigit) = v := Option.some.inj h
          rw [htw] at hv h3
          refine ⟨?_, hall, h3.1, h3.2, hv.symm⟩
          intro hnil
          rw [hnil, List.takeWhile_nil] at htw
          exact h1 (by rw [hnil, List.takeWhile_nil])
        · rw [if_neg h4] at h
          cases h
      · rw [if_neg h3] at h
        cases h
    · rw [if_neg h2] at h
      cases h
  · rintro ⟨hne, hall, hl, hu, hv⟩
    have htw : i.takeWhile isDigit = i := List.takeWhile_eq_self_iff.mpr hall
    have hdw : i.dropWhile isDigit = [] := List.dropWhile_eq_nil_iff.mpr hall
    rw [htw, hdw, if_neg hne, if_pos (le_trans hu (by norm_num)), if_pos ⟨hl, hu⟩,
        if_pos (show ([] : List Nat) = [] from rfl), hv]

/-- Witness for C8: the characterization applied at the input `02`, a
digit run with a tolerated leading zero whose value 2 is in range. -/
theorem c8_day_of_month_range_witness :
    DayOfMonthField_parse [48, 50] = some (digitsVal 0 [48, 50]) :=
  (c8_day_of_month_range.1 [48, 50] (digitsVal 0 [48, 50])).mpr
    ⟨by decide, by decide, by decide, by decide, rfl⟩

/-- C6: decoding a string field fails whenever the input contains the
delimiter byte SOH, fails on the empty input, and otherwise returns the
full input unchanged; a data field decode, by contrast, passes any
nonempty input through unchanged, the delimiter byte included.  Both rules
are modelled from the specification because their parse methods are
`unimplemented!()` stubs in the source. -/
theorem c6_string_rejects_delimiter_data_accepts :
    (∀ i : List Nat, SOH ∈ i → StringField_parse i = none) ∧
    StringField_parse [] = none ∧
    (∀ i : List Nat, i ≠ [] → SOH ∉ i → StringField_parse i = some i) ∧
    (∀ i : List Nat, i ≠ [] → DataField_parse i = some i) ∧
    DataField_parse [20, 1, 20] = some [20, 1, 20] := by
  refine ⟨?_, by decide, ?_, ?_, by decide⟩
  · intro i hmem
    unfold StringField_parse all_consuming take_till1
    by_cases h1 : i.takeWhile (fun b => !(b == SOH)) = []
    · rw [if_pos h1]
    · rw [if_neg h1]
      have hd : i.dropWhile (fun b => !(b == SOH)) ≠ [] :=
        dropWhile_ne_nil_of_mem hmem (by simp)
      cases hdd : i.dropWhile (fun b => !(b == SOH)) with
      | nil => exact absurd hdd hd
      | cons a l => rfl
  · intro i hne hnm
    have hall : ∀ b ∈ i, (fun b => !(b == SOH)) b = true := by
      intro b hb
      have : b ≠ SOH := fun hbs => hnm (hbs ▸ hb)
      simp [this]
    have htw : i.takeWhile (fun b => !(b == SOH)) = i :=
      List.takeWhile_eq_self_iff.mpr hall
    have hdw : i.dropWhile (fun b => !(b == SOH)) = [] :=
      List.dropWhile_eq_nil_iff.mpr hall
    unfold StringField_parse all_consuming take_till1
    rw [if_neg (by rw [htw]; exact hne), htw, hdw]
  · intro i hne
    unfold DataField_parse
    rw [if_neg (by simp [hne])]

/-- Witness for C6: the three general statements applied at concrete
inputs: a string with an embedded SOH fails, a delimiter-free string is
returned unchanged, and a data value consisting of the single SOH byte is
accepted. -/
theorem c6_string_rejects_delimiter_data_accepts_witness :
    StringField_parse [65, 1, 66] = none ∧ StringField_parse [65, 66] = some [65, 66] ∧
    DataField_parse [1] = some [1] :=
  ⟨c6_string_rejects_delimiter_data_accepts.1 [65, 1, 66] (by decide),
   c6_string_rejects_delimiter_data_accepts.2.2.1 [65, 66] (by decide) (by decide),
   c6_string_rejects_delimiter_data_accepts.2.2.2.1 [1] (by decide)⟩

end Fixity
